import Mathlib

/-!
Verification of the real-time signal state reconciliation engine of the
teeb_trade browser client.  The definitions below are a shallow embedding of
the Svelte component in the repository (its `<script>` block) together with
the types from `frontend/src/lib/types.ts`.  JavaScript numbers are modelled
as exact rationals (`Rat`), timestamps (milliseconds since epoch, produced by
`Date.now()`) as integers, and the `Record<string, Signal>` object
`activeSignals` as an association list with unique keys in insertion order,
which matches the observable behaviour of a plain string-keyed JS object
(`Object.values` returns values in insertion order; assigning to an existing
key replaces in place; assigning to a fresh key appends).
-/

namespace TeebTrade

/-- `SignalType` enum from types.ts: Long or Short. -/
inductive SignalType
  | Long
  | Short
deriving DecidableEq, Repr

/-- The `Signal` interface from types.ts. -/
structure Signal where
  symbol : String
  signal_type : SignalType
  price : Rat
  volume : Rat
  avg_volume : Rat
  timestamp : Int
  reason : String
  order_book_ratio : Option Rat
  oi : Option Rat
  net_inflow : Option Rat
deriving DecidableEq, Repr

/-- The `SignalUpdate` interface from types.ts. -/
structure SignalUpdate where
  symbol : String
  price : Rat
  volume : Rat
  timestamp : Int
deriving DecidableEq, Repr

/-- The `Stats` interface from types.ts. -/
structure Stats where
  total_signals : Int
  win_rate : Rat
  top_gainer : String
deriving DecidableEq, Repr

/-- The `WsMessage` tagged union from types.ts. -/
inductive WsMessage
  | signal (payload : Signal)
  | update (payload : SignalUpdate)
  | stats (payload : Stats)
  | history (payload : List Signal)
deriving DecidableEq, Repr

/-- The `activeSignals` object: symbol-keyed store in insertion order. -/
def Registry : Type := List (String × Signal)

instance : DecidableEq Registry := by
  unfold Registry
  infer_instance

instance : Repr Registry := by
  unfold Registry
  infer_instance

/-- Key list of a registry, in insertion order. -/
def keys (r : Registry) : List String := r.map Prod.fst

/-- Property read `activeSignals[k]`: first (unique) binding of `k`. -/
def getKey : Registry → String → Option Signal
  | [], _ => none
  | (k', v') :: r, k => if k' = k then some v' else getKey r k

/-- Property write `activeSignals[k] = v`: replace in place if the key
exists, append otherwise (JS object insertion-order semantics). -/
def setKey : Registry → String → Signal → Registry
  | [], k, v => [(k, v)]
  | (k', v') :: r, k, v =>
      if k' = k then (k, v) :: r else (k', v') :: setKey r k v

/-- In-place field mutation of the binding of `k`, if present. -/
def updateKey : Registry → String → (Signal → Signal) → Registry
  | [], _, _ => []
  | (k', v') :: r, k, f =>
      if k' = k then (k', f v') :: r else (k', v') :: updateKey r k f

/-- The `'Update'` branch of the onmessage handler:
`if (activeSignals[update.symbol]) { ...price = update.price; ...volume =
update.volume; }` — the existing entry's price and volume fields are
overwritten in place; timestamp is deliberately not updated; an unknown
symbol results in no change. -/
def applyUpdate (r : Registry) (u : SignalUpdate) : Registry :=
  match getKey r u.symbol with
  | some _ =>
      updateKey r u.symbol
        (fun s => { s with price := u.price, volume := u.volume })
  | none => r

/-- The component's mutable state: the `activeSignals` map, the `stats`
cell, and the toast/beep side channel.  `toastCount` and `beepCount`
instrument how many times `showToast` and `playBeep` have fired. -/
structure ClientState where
  activeSignals : Registry
  stats : Stats
  isConnected : Bool
  toastMessage : Option String
  toastType : SignalType
  toastCount : Nat
  beepCount : Nat
deriving DecidableEq, Repr

/-- Rendering of a `SignalType` value as in the template strings. -/
def sigTypeText : SignalType → String
  | SignalType.Long => "Long"
  | SignalType.Short => "Short"

/-- `showToast(signal)`: sets the toast message and type; counted once. -/
def showToast (st : ClientState) (s : Signal) : ClientState :=
  { st with
      toastMessage := some (sigTypeText s.signal_type ++ " Signal: " ++ s.symbol)
      toastType := s.signal_type
      toastCount := st.toastCount + 1 }

/-- `playBeep()`: the audible sonar ping; counted once. -/
def playBeep (st : ClientState) : ClientState :=
  { st with beepCount := st.beepCount + 1 }

/-- Initial component state: empty registry, zeroed stats with the `'---'`
placeholder as top gainer, disconnected, no toast shown. -/
def initialState : ClientState where
  activeSignals := []
  stats := { total_signals := 0, win_rate := 0, top_gainer := "---" }
  isConnected := false
  toastMessage := none
  toastType := SignalType.Long
  toastCount := 0
  beepCount := 0

/-- The body of `socket.onmessage` after a successful `JSON.parse`: dispatch
on `data.type`.  `'Stats'` replaces the stats cell; `'Signal'` upserts into
`activeSignals` and fires toast and beep; `'History'` upserts each element
without toast or beep; `'Update'` applies the in-place partial update. -/
def onMessage (st : ClientState) (m : WsMessage) : ClientState :=
  match m with
  | WsMessage.stats payload => { st with stats := payload }
  | WsMessage.signal payload =>
      playBeep (showToast
        { st with activeSignals := setKey st.activeSignals payload.symbol payload }
        payload)
  | WsMessage.history payload =>
      { st with
          activeSignals :=
            payload.foldl (fun r s => setKey r s.symbol s) st.activeSignals }
  | WsMessage.update payload =>
      { st with activeSignals := applyUpdate st.activeSignals payload }

/-- One raw frame through the try/catch in `socket.onmessage`: `none` stands
for a frame on which `JSON.parse` (or the decode) throws — the exception is
caught, an error is logged and no state is touched; `some m` is a frame that
decodes to a `WsMessage`. -/
def processFrame (st : ClientState) (f : Option WsMessage) : ClientState :=
  match f with
  | none => st
  | some m => onMessage st m

/-- Folding a whole sequence of decoded messages through the handler. -/
def processAll (st : ClientState) (ms : List WsMessage) : ClientState :=
  ms.foldl onMessage st

/-- `clearHistory()`: `activeSignals = {}`. -/
def clearHistory (st : ClientState) : ClientState :=
  { st with activeSignals := [] }

/-- The comparator `(a,b) => b.timestamp - a.timestamp` as a sort order:
`a` may precede `b` exactly when `b.timestamp ≤ a.timestamp`. -/
def tsDesc (a b : Signal) : Bool := decide (b.timestamp ≤ a.timestamp)

/-- `sortedActiveSignals = Object.values(activeSignals).sort((a,b) =>
b.timestamp - a.timestamp)`: values in insertion order, stably sorted by
timestamp descending. -/
def sortedActiveSignals (r : Registry) : List Signal :=
  (r.map Prod.snd).mergeSort tsDesc

/-- The live-feed projection: `sortedActiveSignals.filter(s => now -
s.timestamp < 60 * 60 * 1000)`. -/
def activeFeed (r : Registry) (now : Int) : List Signal :=
  (sortedActiveSignals r).filter
    (fun s => decide (now - s.timestamp < 60 * 60 * 1000))

/-- `getProgress(timestamp)`: `Math.min(100, (elapsed / total) * 100)` with
`elapsed = now - timestamp` and `total = 60*60*1000`. -/
def getProgress (now timestamp : Int) : Rat :=
  min 100 (((now - timestamp : Int) : Rat) / (60 * 60 * 1000) * 100)

/-- Sample signal used to instantiate hypotheses at a concrete input. -/
def sampleSignal : Signal where
  symbol := "BTC"
  signal_type := SignalType.Long
  price := 100
  volume := 5
  avg_volume := 2
  timestamp := 0
  reason := "whale inflow"
  order_book_ratio := none
  oi := none
  net_inflow := none

/-- Sample partial update used to instantiate hypotheses. -/
def sampleUpdate : SignalUpdate where
  symbol := "BTC"
  price := 101
  volume := 6
  timestamp := 600000

/-- State reached from the initial state by one live Signal event. -/
def sampleState : ClientState :=
  onMessage initialState (WsMessage.signal sampleSignal)

/-! ### Registry lemmas -/

theorem getKey_setKey_self (r : Registry) (k : String) (v : Signal) :
    getKey (setKey r k v) k = some v := by
  induction r with
  | nil => simp [setKey, getKey]
  | cons p r ih =>
      obtain ⟨k', v'⟩ := p
      by_cases h : k' = k
      · simp [setKey, getKey, h]
      · simp [setKey, getKey, h, ih]

theorem getKey_setKey_ne (r : Registry) (k j : String) (v : Signal)
    (h : j ≠ k) : getKey (setKey r k v) j = getKey r j := by
  induction r with
  | nil => simp [setKey, getKey, Ne.symm h]
  | cons p r ih =>
      obtain ⟨k', v'⟩ := p
      by_cases hk : k' = k
      · subst hk
        simp [setKey, getKey, Ne.symm h]
      · simp only [setKey, if_neg hk, getKey]
        by_cases hj : k' = j
        · simp [hj]
        · simp [hj, ih]

theorem getKey_updateKey_self (r : Registry) (k : String) (f : Signal → Signal) :
    getKey (updateKey r k f) k = (getKey r k).map f := by
  induction r with
  | nil => simp [updateKey, getKey]
  | cons p r ih =>
      obtain ⟨k', v'⟩ := p
      by_cases h : k' = k
      · simp [updateKey, getKey, h]
      · simp [updateKey, getKey, h, ih]

theorem getKey_updateKey_ne (r : Registry) (k j : String) (f : Signal → Signal)
    (h : j ≠ k) : getKey (updateKey r k f) j = getKey r j := by
  induction r with
  | nil => simp [updateKey, getKey]
  | cons p r ih =>
      obtain ⟨k', v'⟩ := p
      by_cases hk : k' = k
      · subst hk
        simp [updateKey, getKey, Ne.symm h]
      · simp only [updateKey, if_neg hk, getKey]
        by_cases hj : k' = j
        · simp [hj]
        · simp [hj, ih]

theorem keys_updateKey (r : Registry) (k : String) (f : Signal → Signal) :
    keys (updateKey r k f) = keys r := by
  induction r with
  | nil => simp [updateKey]
  | cons p r ih =>
      obtain ⟨k', v'⟩ := p
      by_cases h : k' = k
      · simp [updateKey, keys, h]
      · simpa [updateKey, keys, h] using ih

theorem keys_setKey_mem (r : Registry) (k : String) (v : Signal)
    (h : k ∈ keys r) : keys (setKey r k v) = keys r := by
  induction r with
  | nil => simp [keys] at h
  | cons p r ih =>
      obtain ⟨k', v'⟩ := p
      by_cases hk : k' = k
      · simp [setKey, keys, hk]
      · have hmem : k ∈ keys r := by
          simp only [keys, List.map_cons, List.mem_cons] at h
          rcases h with h1 | h2
          · exact absurd h1.symm hk
          · exact h2
        simpa [setKey, keys, hk] using ih hmem

theorem keys_setKey_not_mem (r : Registry) (k : String) (v : Signal)
    (h : k ∉ keys r) : keys (setKey r k v) = keys r ++ [k] := by
  induction r with
  | nil => simp [setKey, keys]
  | cons p r ih =>
      obtain ⟨k', v'⟩ := p
      simp only [keys, List.map_cons, List.mem_cons, not_or] at h
      obtain ⟨h1, h2⟩ := h
      have hk : k' ≠ k := fun hkk => h1 hkk.symm
      simpa [setKey, keys, hk] using ih h2

theorem nodup_keys_setKey (r : Registry) (k : String) (v : Signal)
    (h : (keys r).Nodup) : (keys (setKey r k v)).Nodup := by
  by_cases hm : k ∈ keys r
  · rw [keys_setKey_mem r k v hm]
    exact h
  · rw [keys_setKey_not_mem r k v hm]
    simp [List.nodup_append, h, hm]

theorem nodup_keys_seed (ss : List Signal) (r : Registry)
    (h : (keys r).Nodup) :
    (keys (ss.foldl (fun r s => setKey r s.symbol s) r)).Nodup := by
  induction ss generalizing r with
  | nil => simpa using h
  | cons a t ih => exact ih _ (nodup_keys_setKey _ _ _ h)

theorem nodup_keys_applyUpdate (r : Registry) (u : SignalUpdate)
    (h : (keys r).Nodup) : (keys (applyUpdate r u)).Nodup := by
  rw [applyUpdate]
  cases getKey r u.symbol with
  | none => exact h
  | some s => simpa [keys_updateKey] using h

theorem nodup_keys_onMessage (st : ClientState) (m : WsMessage)
    (h : (keys st.activeSignals).Nodup) :
    (keys (onMessage st m).activeSignals).Nodup := by
  cases m with
  | stats p => exact h
  | signal p => exact nodup_keys_setKey _ _ _ h
  | history p => exact nodup_keys_seed _ _ h
  | update p => exact nodup_keys_applyUpdate _ _ h

theorem nodup_keys_processAll (st : ClientState) (ms : List WsMessage)
    (h : (keys st.activeSignals).Nodup) :
    (keys (processAll st ms).activeSignals).Nodup := by
  induction ms generalizing st with
  | nil => exact h
  | cons m t ih => exact ih _ (nodup_keys_onMessage st m h)

theorem getKey_processAll_append_signal (st : ClientState)
    (ms : List WsMessage) (s : Signal) :
    getKey (processAll st (ms ++ [WsMessage.signal s])).activeSignals s.symbol
      = some s := by
  rw [processAll, List.foldl_append]
  exact getKey_setKey_self _ _ _

/-! ### Claim theorems -/

/-- C1: for every nonempty sequence of processed Signal events carrying the
same symbol S, processed from any state whose registry has unique keys, the
registry entry for S afterwards equals the payload of the most recent Signal
event for S (wholesale replacement, timestamp included, since the stored
entry is the full payload), and the registry keeps at most one entry per
symbol (its key list stays duplicate-free). -/
theorem signal_lastWriteWins (st : ClientState) (S : String)
    (ss : List Signal) (hne : ss ≠ []) (hS : ∀ s ∈ ss, s.symbol = S)
    (hnd : (keys st.activeSignals).Nodup) :
    getKey (processAll st (ss.map WsMessage.signal)).activeSignals S
      = some (ss.getLast hne)
    ∧ (keys (processAll st (ss.map WsMessage.signal)).activeSignals).Nodup := by
  constructor
  · have hmap : ss.map WsMessage.signal
        = (ss.dropLast.map WsMessage.signal)
          ++ [WsMessage.signal (ss.getLast hne)] := by
      conv_lhs => rw [← List.dropLast_append_getLast hne]
      simp
    have hsym : (ss.getLast hne).symbol = S := hS _ (List.getLast_mem hne)
    rw [hmap, ← hsym]
    exact getKey_processAll_append_signal _ _ _
  · exact nodup_keys_processAll _ _ hnd

/-- C1 witness: a concrete two-event run for symbol BTC: the second payload
wins wholesale and the key list stays duplicate-free. -/
theorem signal_lastWriteWins_w :
    getKey (processAll initialState
        ([sampleSignal, { sampleSignal with price := 7, timestamp := 99 }].map
          WsMessage.signal)).activeSignals "BTC"
      = some (([sampleSignal,
          { sampleSignal with price := 7, timestamp := 99 }]).getLast
            (List.cons_ne_nil _ _))
    ∧ (keys (processAll initialState
        ([sampleSignal, { sampleSignal with price := 7, timestamp := 99 }].map
          WsMessage.signal)).activeSignals).Nodup :=
  signal_lastWriteWins initialState "BTC"
    [sampleSignal, { sampleSignal with price := 7, timestamp := 99 }]
    (List.cons_ne_nil _ _) (by decide) (by decide)

/-- C2: an Update whose symbol is present overwrites exactly the price and
volume of that entry; the timestamp and every other field are unchanged, and
every entry under a different key reads back unchanged. -/
theorem update_partial_refresh (r : Registry) (u : SignalUpdate) (s : Signal)
    (h : getKey r u.symbol = some s) :
    (∃ s', getKey (applyUpdate r u) u.symbol = some s'
        ∧ s'.price = u.price ∧ s'.volume = u.volume
        ∧ s'.timestamp = s.timestamp ∧ s'.symbol = s.symbol
        ∧ s'.signal_type = s.signal_type ∧ s'.avg_volume = s.avg_volume
        ∧ s'.reason = s.reason
        ∧ s'.order_book_ratio = s.order_book_ratio
        ∧ s'.oi = s.oi ∧ s'.net_inflow = s.net_inflow)
    ∧ ∀ k, k ≠ u.symbol → getKey (applyUpdate r u) k = getKey r k := by
  have hred : applyUpdate r u
      = updateKey r u.symbol
          (fun s => { s with price := u.price, volume := u.volume }) := by
    rw [applyUpdate, h]
  constructor
  · refine ⟨{ s with price := u.price, volume := u.volume }, ?_,
      rfl, rfl, rfl, rfl, rfl, rfl, rfl, rfl, rfl, rfl⟩
    rw [hred, getKey_updateKey_self, h]
    rfl
  · intro k hk
    rw [hred, getKey_updateKey_ne _ _ _ _ hk]

/-- C2 witness: the concrete one-signal registry, updated for BTC. -/
theorem update_partial_refresh_w :
    (∃ s', getKey (applyUpdate sampleState.activeSignals sampleUpdate)
          sampleUpdate.symbol = some s'
        ∧ s'.price = sampleUpdate.price ∧ s'.volume = sampleUpdate.volume
        ∧ s'.timestamp = sampleSignal.timestamp
        ∧ s'.symbol = sampleSignal.symbol
        ∧ s'.signal_type = sampleSignal.signal_type
        ∧ s'.avg_volume = sampleSignal.avg_volume
        ∧ s'.reason = sampleSignal.reason
        ∧ s'.order_book_ratio = sampleSignal.order_book_ratio
        ∧ s'.oi = sampleSignal.oi ∧ s'.net_inflow = sampleSignal.net_inflow)
    ∧ ∀ k, k ≠ sampleUpdate.symbol →
        getKey (applyUpdate sampleState.activeSignals sampleUpdate) k
          = getKey sampleState.activeSignals k :=
  update_partial_refresh sampleState.activeSignals sampleUpdate sampleSignal
    (by decide)

/-- C3: an Update whose symbol is absent from the registry leaves the whole
client state unchanged — no entry is created, nothing is modified, and the
handler is a total function (no error is raised). -/
theorem orphan_update_noop (st : ClientState) (u : SignalUpdate)
    (h : getKey st.activeSignals u.symbol = none) :
    onMessage st (WsMessage.update u) = st := by
  show { st with activeSignals := applyUpdate st.activeSignals u } = st
  rw [applyUpdate, h]

/-- C3 witness: an Update arriving before any Signal is a no-op. -/
theorem orphan_update_noop_w :
    onMessage initialState (WsMessage.update sampleUpdate) = initialState :=
  orphan_update_noop initialState sampleUpdate (by decide)

/-- C6: a live Signal event fires the toast and the beep exactly once each,
while a History event upserts each contained Signal into the registry without
ever firing either, for every history sequence. -/
theorem history_never_notifies (st : ClientState) (s : Signal)
    (hist : List Signal) :
    (onMessage st (WsMessage.signal s)).toastCount = st.toastCount + 1
    ∧ (onMessage st (WsMessage.signal s)).beepCount = st.beepCount + 1
    ∧ (onMessage st (WsMessage.history hist)).toastCount = st.toastCount
    ∧ (onMessage st (WsMessage.history hist)).beepCount = st.beepCount
    ∧ (onMessage st (WsMessage.history hist)).activeSignals
        = hist.foldl (fun r s => setKey r s.symbol s) st.activeSignals :=
  ⟨rfl, rfl, rfl, rfl, rfl⟩

/-- C7: a frame on which decoding throws is discarded inside the try/catch —
the handler still returns (no crash) and the whole state, registry included,
is unchanged; a valid frame after an unparseable one has exactly the effect
it would have had alone, and for a Signal frame that effect is the upsert of
its payload. -/
theorem decode_failure_discarded (st : ClientState) (m : WsMessage)
    (s : Signal) :
    processFrame st none = st
    ∧ processFrame (processFrame st none) (some m) = processFrame st (some m)
    ∧ (processFrame (processFrame st none)
        (some (WsMessage.signal s))).activeSignals
        = setKey st.activeSignals s.symbol s :=
  ⟨rfl, rfl, rfl⟩

/-- C8: clearHistory empties the registry whatever it held, and an Update
processed afterwards for a symbol that was present before the clear is a
no-op: the state is unchanged and the registry stays empty. -/
theorem clear_then_update_noop (st : ClientState) (u : SignalUpdate)
    (_hpresent : getKey st.activeSignals u.symbol ≠ none) :
    (clearHistory st).activeSignals = []
    ∧ onMessage (clearHistory st) (WsMessage.update u) = clearHistory st
    ∧ (onMessage (clearHistory st) (WsMessage.update u)).activeSignals = [] := by
  refine ⟨rfl, ?_, rfl⟩
  exact orphan_update_noop (clearHistory st) u rfl

/-- C8 witness: clear after one BTC signal, then the BTC update. -/
theorem clear_then_update_noop_w :
    (clearHistory sampleState).activeSignals = []
    ∧ onMessage (clearHistory sampleState) (WsMessage.update sampleUpdate)
        = clearHistory sampleState
    ∧ (onMessage (clearHistory sampleState)
        (WsMessage.update sampleUpdate)).activeSignals = [] :=
  clear_then_update_noop sampleState sampleUpdate (by decide)

/-- C9: before any message the stats cell holds zeroed counters and the
placeholder top gainer, and a Stats event replaces the whole cell with the
event payload. -/
theorem stats_initial_and_wholesale (st : ClientState) (p : Stats) :
    initialState.stats.total_signals = 0
    ∧ initialState.stats.win_rate = 0
    ∧ initialState.stats.top_gainer = "---"
    ∧ (onMessage st (WsMessage.stats p)).stats = p :=
  ⟨rfl, rfl, rfl, rfl⟩

/-- C10: component isolation — a Stats event leaves the registry unchanged;
Signal, Update and History events leave the stats cell unchanged; and the
user-initiated clear empties only the registry, leaving stats unchanged. -/
theorem component_isolation (st : ClientState) (p : Stats) (s : Signal)
    (u : SignalUpdate) (hist : List Signal) :
    (onMessage st (WsMessage.stats p)).activeSignals = st.activeSignals
    ∧ (onMessage st (WsMessage.signal s)).stats = st.stats
    ∧ (onMessage st (WsMessage.update u)).stats = st.stats
    ∧ (onMessage st (WsMessage.history hist)).stats = st.stats
    ∧ (clearHistory st).stats = st.stats
    ∧ (clearHistory st).activeSignals = [] :=
  ⟨rfl, rfl, rfl, rfl, rfl, rfl⟩

/-- C4: the active feed holds exactly the registry entries whose age is
strictly below 60 minutes (an entry aged exactly 60 minutes is excluded, the
comparison being strict), and its output is sorted by timestamp descending. -/
theorem activeFeed_spec (r : Registry) (now : Int) :
    (∀ s, s ∈ activeFeed r now
        ↔ s ∈ r.map Prod.snd ∧ now - s.timestamp < 60 * 60 * 1000)
    ∧ (activeFeed r now).Pairwise (fun a b => b.timestamp ≤ a.timestamp) := by
  constructor
  · intro s
    rw [activeFeed, List.mem_filter]
    simp only [sortedActiveSignals,
      (List.mergeSort_perm (r.map Prod.snd) tsDesc).mem_iff,
      decide_eq_true_eq]
  · have htrans : ∀ a b c : Signal,
        tsDesc a b = true → tsDesc b c = true → tsDesc a c = true := by
      intro a b c hab hbc
      simp only [tsDesc, decide_eq_true_eq] at *
      omega
    have htotal : ∀ a b : Signal, (tsDesc a b || tsDesc b a) = true := by
      intro a b
      simp only [tsDesc, Bool.or_eq_true, decide_eq_true_eq]
      omega
    have hs := List.sorted_mergeSort htrans htotal (r.map Prod.snd)
    exact (hs.filter _).imp (fun hab => by
      simpa [tsDesc, decide_eq_true_eq] using hab)

/-- C5 counterexample: the code clamps only from above (`Math.min(100, ...)`);
for a timestamp one hour in the future the progress value is -100, outside
[0,100], so "always clamped to the interval [0,100]" is false as stated. -/
theorem getProgress_not_lower_clamped :
    getProgress 0 (60 * 60 * 1000) = -100
    ∧ getProgress 0 (60 * 60 * 1000) < 0 := by
  constructor <;> norm_num [getProgress]

/-- C5 (amended): the progress ratio is monotonically non-decreasing in
elapsed time and never exceeds 100; whenever elapsed time is non-negative
(timestamp not in the future) it lies in [0,100]; it is 0 at elapsed 0, 50
at elapsed 30 minutes, and 100 for every elapsed time of at least 60
minutes.  (Only the upper bound is enforced unconditionally: a negative
elapsed time yields a negative, unclamped value.) -/
theorem getProgress_spec_amended (now t1 t2 tp tl : Int)
    (h12 : now - t1 ≤ now - t2) (hp : 0 ≤ now - tp)
    (hl : 60 * 60 * 1000 ≤ now - tl) :
    getProgress now t1 ≤ getProgress now t2
    ∧ (∀ u, getProgress now u ≤ 100)
    ∧ 0 ≤ getProgress now tp
    ∧ getProgress now now = 0
    ∧ getProgress now (now - 30 * 60 * 1000) = 50
    ∧ getProgress now tl = 100 := by
  refine ⟨?_, fun u => min_le_left _ _, ?_, ?_, ?_, ?_⟩
  · apply min_le_min (le_refl (100 : Rat))
    have hc : ((now - t1 : Int) : Rat) ≤ ((now - t2 : Int) : Rat) :=
      Int.cast_le.mpr h12
    gcongr
  · have hc : (0 : Rat) ≤ ((now - tp : Int) : Rat) := by exact_mod_cast hp
    refine le_min (by norm_num) ?_
    positivity
  · simp [getProgress]
  · have he : now - (now - 30 * 60 * 1000) = (30 * 60 * 1000 : Int) := by ring
    rw [getProgress, he]
    norm_num
  · have hc : ((60 * 60 * 1000 : Int) : Rat) ≤ ((now - tl : Int) : Rat) :=
      Int.cast_le.mpr hl
    rw [getProgress]
    apply min_eq_left
    have h2 : ((60 * 60 * 1000 : Int) : Rat) / (60 * 60 * 1000) * 100
        ≤ ((now - tl : Int) : Rat) / (60 * 60 * 1000) * 100 := by
      gcongr
    calc (100 : Rat)
        = ((60 * 60 * 1000 : Int) : Rat) / (60 * 60 * 1000) * 100 := by
          norm_num
      _ ≤ ((now - tl : Int) : Rat) / (60 * 60 * 1000) * 100 := h2

/-- C5 amended witness: a concrete hour-long run (now one hour after the
epoch): monotone step, upper bound, the three anchor values. -/
theorem getProgress_spec_amended_w :
    getProgress 3600000 3600000 ≤ getProgress 3600000 1800000
    ∧ (∀ u, getProgress 3600000 u ≤ 100)
    ∧ 0 ≤ getProgress 3600000 1800000
    ∧ getProgress 3600000 3600000 = 0
    ∧ getProgress 3600000 (3600000 - 30 * 60 * 1000) = 50
    ∧ getProgress 3600000 0 = 100 :=
  getProgress_spec_amended 3600000 3600000 1800000 1800000 0
    (by decide) (by decide) (by decide)

end TeebTrade
